import Mathlib

/-!
Shallow embedding of the Ghost SDK shielded-ledger client
(`packages/python/ghost_sdk/client.py`) and proofs about it.

Modelling conventions:
* Python `bytes` values are `List Nat` (one entry per byte).
* `hashlib.sha256` is abstracted as an explicit function parameter
  `H : Bytes → Bytes`; the code uses it only as an opaque digest, and
  theorems that need collision-freeness take `Function.Injective H` as an
  explicit hypothesis (the idealisation of a cryptographic hash).
* Python `dict` (which iterates in insertion order, updates in place, and
  appends fresh keys at the end) is an association list with exactly those
  operations; `set` is a list with membership-guarded insertion.
* The `.hex()` encoding used to turn digest bytes into dict/set keys is an
  injective encoding of bytes, so keys are modelled by the digest bytes
  themselves.
* `str.encode()` (UTF-8) is modelled as the sequence of character codes,
  which is likewise an injective encoding; it is only ever compared or
  concatenated, never decoded.
* `raise ValueError(msg)` / `OverflowError` become an `Except PyError`
  result paired with the state at the moment of the raise, so that theorems
  can talk about the state left behind by a failing call.
* The client's fixed nacl signing key is the parameter `sk : Bytes`, and
  `get_ghost_identifier()` (hex of the verify key) is the parameter
  `ghostId : String`.
* `nacl.utils.random(32)` nonces are explicit inputs: each `deposit` takes
  the nonce the RNG would have produced.
-/

/-- Byte strings, one `Nat` per byte. -/
abbrev Bytes := List Nat

/-- Commitment record: the dictionary `{'value': …, 'nonce': …, 'amount': …}`
returned by `GhostClient.generate_commitment`. Python ints are unbounded, so
`amount` is `Int`. -/
structure Commitment where
  value : Bytes
  nonce : Bytes
  amount : Int
deriving Repr, DecidableEq

/-- Python exceptions raised by the client:
`OverflowError` (from `int.to_bytes` on an out-of-range amount) and
`ValueError msg` (raised explicitly with a message string). -/
inductive PyError where
  | overflowError
  | valueError (msg : String)
deriving Repr, DecidableEq

/-- Model of Python `amount.to_bytes(8, 'little')`: 8 little-endian bytes when
`0 ≤ amount < 2^64`, otherwise an `OverflowError` (modelled as `none`). -/
def toBytes8LE (n : Int) : Option Bytes :=
  if 0 ≤ n ∧ n < 2 ^ 64 then
    some ((List.range 8).map (fun i => n.toNat / 256 ^ i % 256))
  else none

/-- Model of Python `s.encode()`: the byte sequence of a string, modelled as
its character-code sequence (an injective encoding, used only opaquely). -/
def strBytes (s : String) : Bytes := s.toList.map Char.toNat

/-- Insertion-ordered dictionary assignment `d[k] = v`: an existing key keeps
its position and gets the new value; a fresh key is appended at the end. -/
def dictSet (d : List (Bytes × Commitment)) (k : Bytes) (v : Commitment) :
    List (Bytes × Commitment) :=
  if d.any (fun p => p.1 = k) then
    d.map (fun p => if p.1 = k then (k, v) else p)
  else d ++ [(k, v)]

/-- Dictionary deletion `del d[k]`. -/
def dictDel (d : List (Bytes × Commitment)) (k : Bytes) :
    List (Bytes × Commitment) :=
  d.filter (fun p => ¬ p.1 = k)

/-- Iteration `d.values()`, in insertion order. -/
def dictValues (d : List (Bytes × Commitment)) : List Commitment :=
  d.map Prod.snd

/-- Mutable state of a `GhostClient`: `self.commitments` (dict keyed by the
commitment digest; the `.hex()` key encoding is elided) and `self.nullifiers`
(set of nullifier digests, same elision). -/
structure ClientState where
  commitments : List (Bytes × Commitment)
  nullifiers : List Bytes
deriving Repr, DecidableEq

/-- Freshly constructed client: both containers empty. -/
def ClientState.empty : ClientState := ⟨[], []⟩

/-- `GhostClient.generate_commitment(amount, recipient, nonce)`:
`value = sha256(recipient.encode() + amount.to_bytes(8,'little') + nonce)`.
Pure: takes no ledger state and returns none. A negative or ≥ 2^64 amount
makes `to_bytes` raise `OverflowError`; there is no other validation. -/
def generate_commitment (H : Bytes → Bytes) (amount : Int) (recipient : String)
    (nonce : Bytes) : Except PyError Commitment :=
  match toBytes8LE amount with
  | none => .error .overflowError
  | some ab =>
      .ok { value := H (strBytes recipient ++ ab ++ nonce)
            nonce := nonce
            amount := amount }

/-- `GhostClient.generate_nullifier(commitment)`:
`value = sha256(commitment['value'] + bytes(self.private_key))`, returned
together with `commitment_ref = commitment['value']`. Pure. -/
def generate_nullifier (H : Bytes → Bytes) (sk : Bytes) (c : Commitment) :
    Bytes × Bytes :=
  (H (c.value ++ sk), c.value)

/-- `GhostClient.deposit(amount)`: generate a commitment for `amount` with
recipient `get_ghost_identifier()` and the RNG-supplied `nonce`, then store it
with `self.commitments[key] = commitment`. Returns the post state and the
result (`"deposit_tx_signature"` on success). -/
def deposit (H : Bytes → Bytes) (ghostId : String) (amount : Int)
    (nonce : Bytes) (st : ClientState) : ClientState × Except PyError String :=
  match generate_commitment H amount ghostId nonce with
  | .error e => (st, .error e)
  | .ok c =>
      ({ st with commitments := dictSet st.commitments c.value c },
       .ok "deposit_tx_signature")

/-- `GhostClient.withdraw(amount, recipient)`: find the first stored
commitment with `c['amount'] >= amount` (insertion order); raise
`ValueError("Insufficient balance")` if none; derive the nullifier; raise
`ValueError("Commitment already spent")` if its value is already in
`self.nullifiers`; otherwise add the nullifier, delete the commitment, and
return the constant string `"withdraw_tx_signature"` — the nullifier is only
printed, and no receipt object is returned. The `recipient` argument is
likewise only printed, never used. -/
def withdraw (H : Bytes → Bytes) (sk : Bytes) (amount : Int)
    (recipient : String) (st : ClientState) :
    ClientState × Except PyError String :=
  match (dictValues st.commitments).find? (fun c => decide (amount ≤ c.amount)) with
  | none => (st, .error (.valueError "Insufficient balance"))
  | some c =>
      let nul := generate_nullifier H sk c
      if nul.1 ∈ st.nullifiers then
        (st, .error (.valueError "Commitment already spent"))
      else
        ({ commitments := dictDel st.commitments c.value
           nullifiers := nul.1 :: st.nullifiers },
         .ok "withdraw_tx_signature")

/-- `GhostClient.private_transfer(recipient, amount, memo)`: delegates to
`withdraw(amount, recipient)`; the memo is only printed. -/
def private_transfer (H : Bytes → Bytes) (sk : Bytes) (recipient : String)
    (amount : Int) (memo : Option String) (st : ClientState) :
    ClientState × Except PyError String :=
  withdraw H sk amount recipient st

/-- `GhostClient.get_private_balance()`:
`sum(c['amount'] for c in self.commitments.values())`. -/
def get_private_balance (st : ClientState) : Int :=
  ((dictValues st.commitments).map Commitment.amount).sum

/-- Result dictionary of `generate_balance_proof`. -/
structure BalanceProof where
  proof : Bytes
  public_signals : List Int
deriving Repr, DecidableEq

/-- `GhostClient.generate_balance_proof(min_balance)`: raise
`ValueError("Insufficient balance")` when the private balance is below
`min_balance`, else return `{'proof': b'proof_data',
'public_signals': [min_balance]}`. -/
def generate_balance_proof (min_balance : Int) (st : ClientState) :
    Except PyError BalanceProof :=
  if get_private_balance st < min_balance then
    .error (.valueError "Insufficient balance")
  else
    .ok { proof := strBytes "proof_data", public_signals := [min_balance] }

/-- One externally-invokable ledger mutation: a `deposit` call (with the
nonce the RNG supplies for it) or a `withdraw` call. -/
inductive Op where
  | deposit (amount : Int) (nonce : Bytes)
  | withdraw (amount : Int) (recipient : String)
deriving Repr, DecidableEq

/-- Execute one operation on the client state (a raised exception leaves the
state as the operation left it, which for this client is unchanged on every
failure path). -/
def stepOp (H : Bytes → Bytes) (ghostId : String) (sk : Bytes)
    (st : ClientState) : Op → ClientState
  | .deposit a n => (deposit H ghostId a n st).1
  | .withdraw a r => (withdraw H sk a r st).1

/-- Execute a sequence of operations, also accumulating the list of
commitment `value`s consumed by the successful withdraws, in order: for each
successful withdraw this is the digest of its first-fit match, i.e. of the
entry the call deletes from the dictionary. -/
def runConsumed (H : Bytes → Bytes) (ghostId : String) (sk : Bytes)
    (st : ClientState) (consumed : List Bytes) :
    List Op → ClientState × List Bytes
  | [] => (st, consumed)
  | .deposit a n :: ops =>
      runConsumed H ghostId sk (deposit H ghostId a n st).1 consumed ops
  | .withdraw a r :: ops =>
      match withdraw H sk a r st with
      | (st', .ok _) =>
          match (dictValues st.commitments).find?
              (fun c => decide (a ≤ c.amount)) with
          | some c => runConsumed H ghostId sk st' (consumed ++ [c.value]) ops
          | none => runConsumed H ghostId sk st' consumed ops
      | (st', .error _) => runConsumed H ghostId sk st' consumed ops

/-- State reached from the empty ledger by a sequence of operations. -/
def run (H : Bytes → Bytes) (ghostId : String) (sk : Bytes) (ops : List Op) :
    ClientState :=
  (runConsumed H ghostId sk ClientState.empty [] ops).1

/-- Nonces supplied to the deposits of an operation sequence, in order. -/
def depositNonces : List Op → List Bytes
  | [] => []
  | .deposit _ n :: ops => n :: depositNonces ops
  | .withdraw _ _ :: ops => depositNonces ops

/-- Identity digest: a concrete instantiation of the hash parameter used by
witnesses and counterexamples (injective, and the preimages in play are
already distinct byte strings). -/
def idHash : Bytes → Bytes := fun b => b

/-- Structural well-formedness of the commitment dictionary: every entry is
keyed by its commitment's digest, and keys are distinct. Every state built
through the client's own API satisfies this. -/
def KeysOK (st : ClientState) : Prop :=
  (∀ p ∈ st.commitments, p.1 = p.2.value) ∧
  (st.commitments.map Prod.fst).Nodup

/-- Inductive invariant tying a client state to the trace data that produced
it: `consumed` lists the commitment digests redeemed so far and `used` the
nonces handed to deposits so far. Fields: dictionary well-formedness,
non-negative stored amounts, the nullifier set is exactly the image of the
consumed digests under the nullifier derivation, each digest is consumed at
most once, no open commitment is already consumed, and every open or
consumed digest arose from a deposit with a recorded nonce. -/
structure LedgerInv (H : Bytes → Bytes) (ghostId : String) (sk : Bytes)
    (st : ClientState) (consumed : List Bytes) (used : List Bytes) : Prop where
  keyOK : ∀ p ∈ st.commitments, p.1 = p.2.value
  keysNodup : (st.commitments.map Prod.fst).Nodup
  amountsOK : ∀ p ∈ st.commitments, 0 ≤ p.2.amount
  nullChar : ∀ s, s ∈ st.nullifiers ↔ ∃ v ∈ consumed, s = H (v ++ sk)
  consumedNodup : consumed.Nodup
  disj : ∀ p ∈ st.commitments, p.2.value ∉ consumed
  provOpen : ∀ p ∈ st.commitments, ∃ a ab n, n ∈ used ∧
    toBytes8LE a = some ab ∧ p.2.value = H (strBytes ghostId ++ ab ++ n)
  provCons : ∀ v ∈ consumed, ∃ a ab n, n ∈ used ∧
    toBytes8LE a = some ab ∧ v = H (strBytes ghostId ++ ab ++ n)

/-- Concrete one-commitment state used by witnesses: a deposit of 5 lamports
with nonce `[0]` under the identity digest, ghost id `""` and signing key
`[1]`. -/
def stW : ClientState := (deposit idHash "" 5 [0] ClientState.empty).1

/-- The commitment stored in `stW`: digest `bytes8LE(5) ++ [0]`. -/
def cW : Commitment := ⟨[5, 0, 0, 0, 0, 0, 0, 0, 0], [0], 5⟩

/-- Operations of the spec's scenario: deposit 1_000_000_000 then
deposit 500_000_000 (nonces `[0]` and `[1]`). -/
def scenarioOps : List Op :=
  [.deposit 1000000000 [0], .deposit 500000000 [1]]

/-- Scenario state after the two deposits (identity digest, ghost id `""`,
signing key `[1]`). -/
def st2 : ClientState := run idHash "" [1] scenarioOps

/-- Scenario state after the subsequent `withdraw(500_000_000)`. -/
def st3 : ClientState := (withdraw idHash [1] 500000000 "r" st2).1

/-- The 1_000_000_000 commitment of the scenario: its digest is
`bytes8LE(1_000_000_000) ++ [0]` (little-endian bytes of 0x3B9ACA00,
followed by the nonce). -/
def c1B : Commitment := ⟨[0, 202, 154, 59, 0, 0, 0, 0, 0], [0], 1000000000⟩

/-- The 8 little-endian bytes of an in-range amount (the `some` payload of
`toBytes8LE`). -/
def bytes8 (a : Int) : Bytes :=
  (List.range 8).map (fun i => a.toNat / 256 ^ i % 256)

/-- Concrete trace used by witnesses: one deposit of 5 (nonce `[0]`)
followed by a withdraw of 5. -/
def opsW : List Op := [.deposit 5 [0], .withdraw 5 ""]

/-- Encoding an in-range amount yields 8 bytes. -/
lemma toBytes8LE_length (a : Int) (ab : Bytes) (h : toBytes8LE a = some ab) :
    ab.length = 8 := by
  unfold toBytes8LE at h
  split at h
  · cases h; simp
  · cases h

/-- Encoding succeeds exactly on amounts representable as `uint64`. -/
lemma toBytes8LE_isSome_iff (a : Int) :
    (∃ ab, toBytes8LE a = some ab) ↔ 0 ≤ a ∧ a < 2 ^ 64 := by
  unfold toBytes8LE
  split
  · next h => simpa using h
  · next h => simpa using h

/-- A successfully encoded amount is non-negative. -/
lemma toBytes8LE_nonneg (a : Int) (ab : Bytes) (h : toBytes8LE a = some ab) :
    0 ≤ a :=
  ((toBytes8LE_isSome_iff a).mp ⟨ab, h⟩).1

/-- With an injective digest, equal commitment digests force equal nonces:
the recipient prefix cancels on the left and the 8-byte amount blocks have
equal length, leaving the nonces equal. -/
lemma commit_value_nonce_eq (H : Bytes → Bytes) (hH : Function.Injective H)
    (g : Bytes) (a a' : Int) (ab ab' n n' : Bytes)
    (ha : toBytes8LE a = some ab) (ha' : toBytes8LE a' = some ab')
    (hv : H (g ++ ab ++ n) = H (g ++ ab' ++ n')) : n = n' := by
  have h1 : g ++ ab ++ n = g ++ ab' ++ n' := hH hv
  rw [List.append_assoc, List.append_assoc] at h1
  have h2 : ab ++ n = ab' ++ n' := List.append_cancel_left h1
  exact List.append_inj_right h2 (by rw [toBytes8LE_length a ab ha, toBytes8LE_length a' ab' ha'])

/-- With an injective digest, equal nullifier digests force equal commitment
digests (the signing-key suffix cancels on the right). -/
lemma nullifier_value_inj (H : Bytes → Bytes) (hH : Function.Injective H)
    (sk v v' : Bytes) (h : H (v ++ sk) = H (v' ++ sk)) : v = v' :=
  List.append_cancel_right (hH h)

/-- Entries of a dictionary after assignment: the assigned pair or an
original entry. -/
lemma mem_dictSet {d : List (Bytes × Commitment)} {k : Bytes} {v : Commitment}
    {p : Bytes × Commitment} (hp : p ∈ dictSet d k v) :
    p = (k, v) ∨ p ∈ d := by
  unfold dictSet at hp
  split at hp
  · obtain ⟨q, hq, hfq⟩ := List.mem_map.mp hp
    by_cases hc : q.1 = k
    · left; rw [← hfq]; simp [hc]
    · right; rw [← hfq]; simp [hc]; exact hq
  · rcases List.mem_append.mp hp with h | h
    · right; exact h
    · left; simpa using h

/-- Assignment keeps the key list duplicate-free: an existing key keeps its
position, a fresh key is appended. -/
lemma dictSet_keys_nodup {d : List (Bytes × Commitment)} {k : Bytes}
    {v : Commitment} (hnd : (d.map Prod.fst).Nodup) :
    ((dictSet d k v).map Prod.fst).Nodup := by
  unfold dictSet
  split
  · rw [List.map_map]
    have heq : d.map (Prod.fst ∘ fun p => if p.1 = k then (k, v) else p) =
        d.map Prod.fst :=
      List.map_congr_left fun p _ => by by_cases hc : p.1 = k <;> simp [hc]
    rw [heq]; exact hnd
  · next h =>
      have hk : k ∉ d.map Prod.fst := by
        intro hmem
        obtain ⟨p, hp, hpk⟩ := List.mem_map.mp hmem
        exact h (List.any_eq_true.mpr ⟨p, hp, by simp [hpk]⟩)
      rw [List.map_append]
      simp [List.nodup_append, hnd, hk]

/-- Elimination form of a successful `generate_commitment`. -/
lemma generate_commitment_ok {H : Bytes → Bytes} {a : Int} {recipient : String}
    {nonce : Bytes} {c : Commitment}
    (h : generate_commitment H a recipient nonce = .ok c) :
    ∃ ab, toBytes8LE a = some ab ∧
      c = ⟨H (strBytes recipient ++ ab ++ nonce), nonce, a⟩ := by
  unfold generate_commitment at h
  cases hb : toBytes8LE a with
  | none => rw [hb] at h; cases h
  | some ab => rw [hb] at h; cases h; exact ⟨ab, rfl, rfl⟩

/-- Elimination form of a successful `withdraw`: the returned value is the
constant signature string, the first-fit match exists, its derived nullifier
was unspent, and the post state records the nullifier and deletes the
commitment. -/
lemma withdraw_ok_elim {H : Bytes → Bytes} {sk : Bytes} {amount : Int}
    {recipient : String} {st : ClientState} {s : String}
    (h : (withdraw H sk amount recipient st).2 = .ok s) :
    s = "withdraw_tx_signature" ∧
    ∃ c, (dictValues st.commitments).find?
        (fun d => decide (amount ≤ d.amount)) = some c ∧
      H (c.value ++ sk) ∉ st.nullifiers ∧
      (withdraw H sk amount recipient st).1 =
        { commitments := dictDel st.commitments c.value
          nullifiers := H (c.value ++ sk) :: st.nullifiers } := by
  unfold withdraw at h ⊢
  cases hf : (dictValues st.commitments).find? (fun d => decide (amount ≤ d.amount)) with
  | none => rw [hf] at h; cases h
  | some c' =>
      rw [hf] at h
      by_cases hm : (generate_nullifier H sk c').1 ∈ st.nullifiers
      · simp [hm] at h
      · have hs : "withdraw_tx_signature" = s := by
          simpa [hm] using h
        refine ⟨hs.symm, c', rfl, hm, ?_⟩
        have hm' : H (c'.value ++ sk) ∉ st.nullifiers := hm
        simp [generate_nullifier, hm']
lemma withdraw_error_state_eq (H : Bytes → Bytes) (sk : Bytes) (amount : Int)
    (recipient : String) (st : ClientState) (e : PyError)
    (h : (withdraw H sk amount recipient st).2 = .error e) :
    (withdraw H sk amount recipient st).1 = st := by
  unfold withdraw at *
  cases hf : (dictValues st.commitments).find? (fun c => decide (amount ≤ c.amount)) with
  | none => simp [hf]
  | some c =>
      rw [hf] at h
      by_cases hm : (generate_nullifier H sk c).1 ∈ st.nullifiers
      · simp [hm]
      · simp [hm] at h

/-- Deleting the (unique) entry of a present pair removes exactly its amount
from the balance sum. -/
lemma sum_amounts_dictDel (l : List (Bytes × Commitment)) (q : Bytes × Commitment)
    (hmem : q ∈ l) (hnd : (l.map Prod.fst).Nodup) :
    ((dictValues (dictDel l q.1)).map Commitment.amount).sum =
      ((dictValues l).map Commitment.amount).sum - q.2.amount := by
  induction l with
  | nil => cases hmem
  | cons p t ih =>
      simp only [List.map_cons, List.nodup_cons] at hnd
      unfold dictDel dictValues at ih ⊢
      rcases List.mem_cons.mp hmem with h | h
      · subst h
        have hkeepAll : ∀ r ∈ t, (decide ¬ r.1 = q.1) = true := fun r hr => by
          simp only [decide_eq_true_eq]
          exact fun hc => hnd.1 (hc ▸ List.mem_map_of_mem Prod.fst hr)
        rw [List.filter_cons]
        have hq : (decide ¬ q.1 = q.1) = false := by simp
        rw [hq, if_neg (by simp), List.filter_eq_self.mpr hkeepAll]
        simp only [List.map_cons, List.sum_cons]
        omega
      · have hne : (decide ¬ p.1 = q.1) = true := by
          simp only [decide_eq_true_eq]
          exact fun hc => hnd.1 (hc ▸ List.mem_map_of_mem Prod.fst h)
        rw [List.filter_cons, hne, if_pos rfl]
        simp only [List.map_cons, List.sum_cons]
        rw [ih h hnd.2]
        omega

/-- The ledger invariant is monotone in the set of recorded nonces. -/
lemma LedgerInv.mono_used {H : Bytes → Bytes} {ghostId : String} {sk : Bytes}
    {st : ClientState} {consumed used used' : List Bytes}
    (h : LedgerInv H ghostId sk st consumed used)
    (hsub : ∀ n ∈ used, n ∈ used') :
    LedgerInv H ghostId sk st consumed used' where
  keyOK := h.keyOK
  keysNodup := h.keysNodup
  amountsOK := h.amountsOK
  nullChar := h.nullChar
  consumedNodup := h.consumedNodup
  disj := h.disj
  provOpen := fun p hp => by
    obtain ⟨a, ab, n, hn, hab, hv⟩ := h.provOpen p hp
    exact ⟨a, ab, n, hsub n hn, hab, hv⟩
  provCons := fun v hv => by
    obtain ⟨a, ab, n, hn, hab, hveq⟩ := h.provCons v hv
    exact ⟨a, ab, n, hsub n hn, hab, hveq⟩

/-- The freshly constructed client satisfies the ledger invariant with no
consumed digests and no used nonces. -/
lemma ledgerInv_empty (H : Bytes → Bytes) (ghostId : String) (sk : Bytes) :
    LedgerInv H ghostId sk ClientState.empty [] [] where
  keyOK := by intro p hp; simp [ClientState.empty] at hp
  keysNodup := by simp [ClientState.empty]
  amountsOK := by intro p hp; simp [ClientState.empty] at hp
  nullChar := by intro s; simp [ClientState.empty]
  consumedNodup := List.nodup_nil
  disj := by intro p hp; simp [ClientState.empty] at hp
  provOpen := by intro p hp; simp [ClientState.empty] at hp
  provCons := by intro v hv; simp at hv

/-- A deposit with a nonce not used before preserves the ledger invariant,
recording the nonce. -/
lemma ledgerInv_deposit {H : Bytes → Bytes} (hH : Function.Injective H)
    {ghostId : String} {sk : Bytes} {st : ClientState}
    {consumed used : List Bytes}
    (hinv : LedgerInv H ghostId sk st consumed used) (a : Int) (n : Bytes)
    (hn : n ∉ used) :
    LedgerInv H ghostId sk (deposit H ghostId a n st).1 consumed (n :: used) := by
  cases hg : generate_commitment H a ghostId n with
  | error e =>
      have hst : (deposit H ghostId a n st).1 = st := by
        unfold deposit; rw [hg]
      rw [hst]
      exact hinv.mono_used (fun m hm => List.mem_cons_of_mem _ hm)
  | ok c =>
      obtain ⟨ab, hab, hc⟩ := generate_commitment_ok hg
      have hval : c.value = H (strBytes ghostId ++ ab ++ n) := by rw [hc]
      have hnonce : c.nonce = n := by rw [hc]
      have hamt : c.amount = a := by rw [hc]
      have hnotcons : c.value ∉ consumed := by
        intro hmem
        obtain ⟨a', ab', n', hn', hab', hv'⟩ := hinv.provCons c.value hmem
        have hne : n = n' :=
          commit_value_nonce_eq H hH (strBytes ghostId) a a' ab ab' n n'
            hab hab' (by rw [← hval, hv'])
        exact hn (hne ▸ hn')
      have hpost : (deposit H ghostId a n st).1 =
          { st with commitments := dictSet st.commitments c.value c } := by
        unfold deposit; rw [hg]
      rw [hpost]
      refine ⟨?_, ?_, ?_, ?_, ?_, ?_, ?_, ?_⟩
      · intro p hp
        rcases mem_dictSet hp with h | h
        · rw [h]
        · exact hinv.keyOK p h
      · exact dictSet_keys_nodup hinv.keysNodup
      · intro p hp
        rcases mem_dictSet hp with h | h
        · rw [h]; simpa [hamt] using toBytes8LE_nonneg a ab hab
        · exact hinv.amountsOK p h
      · exact hinv.nullChar
      · exact hinv.consumedNodup
      · intro p hp
        rcases mem_dictSet hp with h | h
        · rw [h]; exact hnotcons
        · exact hinv.disj p h
      · intro p hp
        rcases mem_dictSet hp with h | h
        · exact ⟨a, ab, n, List.mem_cons_self n used, hab, by rw [h]; exact hval⟩
        · obtain ⟨a', ab', n', hn', hab', hv'⟩ := hinv.provOpen p h
          exact ⟨a', ab', n', List.mem_cons_of_mem _ hn', hab', hv'⟩
      · intro v hv
        obtain ⟨a', ab', n', hn', hab', hv'⟩ := hinv.provCons v hv
        exact ⟨a', ab', n', List.mem_cons_of_mem _ hn', hab', hv'⟩

/-- Explicit value of the byte encoding on in-range amounts. -/
lemma toBytes8LE_eq_bytes8 (a : Int) (h0 : 0 ≤ a) (h1 : a < 2 ^ 64) :
    toBytes8LE a = some (bytes8 a) := by
  unfold toBytes8LE bytes8
  rw [if_pos ⟨h0, h1⟩]

/-- Computation form of a deposit with an in-range amount. -/
lemma deposit_eq {H : Bytes → Bytes} {ghostId : String} {amount : Int}
    {nonce ab : Bytes} {st : ClientState}
    (hab : toBytes8LE amount = some ab) :
    deposit H ghostId amount nonce st =
      ({ st with commitments := (dictSet st.commitments
          (H (strBytes ghostId ++ ab ++ nonce))
          ⟨H (strBytes ghostId ++ ab ++ nonce), nonce, amount⟩) },
       .ok "deposit_tx_signature") := by
  unfold deposit generate_commitment
  rw [hab]

/-- Computation form of a successful withdraw, given the first-fit match and
an unspent nullifier. -/
lemma withdraw_of_find_notmem {H : Bytes → Bytes} {sk : Bytes} {amount : Int}
    {recipient : String} {st : ClientState} {c : Commitment}
    (hfind : (dictValues st.commitments).find?
      (fun d => decide (amount ≤ d.amount)) = some c)
    (hm : H (c.value ++ sk) ∉ st.nullifiers) :
    withdraw H sk amount recipient st =
      ({ commitments := dictDel st.commitments c.value
         nullifiers := H (c.value ++ sk) :: st.nullifiers },
       .ok "withdraw_tx_signature") := by
  unfold withdraw
  rw [hfind]
  show (if H (c.value ++ sk) ∈ st.nullifiers then
          (st, Except.error (PyError.valueError "Commitment already spent"))
        else
          ({ commitments := dictDel st.commitments c.value
             nullifiers := H (c.value ++ sk) :: st.nullifiers },
           Except.ok "withdraw_tx_signature")) = _
  rw [if_neg hm]

/-- Computation form of a withdraw that finds no qualifying commitment. -/
lemma withdraw_of_find_none {H : Bytes → Bytes} {sk : Bytes} {amount : Int}
    {recipient : String} {st : ClientState}
    (hfind : (dictValues st.commitments).find?
      (fun d => decide (amount ≤ d.amount)) = none) :
    withdraw H sk amount recipient st =
      (st, .error (.valueError "Insufficient balance")) := by
  unfold withdraw
  rw [hfind]

/-- A successful withdraw — first-fit match `c` with an unspent nullifier —
preserves the ledger invariant, appending the consumed digest. -/
lemma ledgerInv_withdraw_ok {H : Bytes → Bytes} (hH : Function.Injective H)
    {ghostId : String} {sk : Bytes} {st : ClientState}
    {consumed used : List Bytes}
    (hinv : LedgerInv H ghostId sk st consumed used) (a : Int) (r : String)
    {c : Commitment}
    (hfind : (dictValues st.commitments).find?
      (fun d => decide (a ≤ d.amount)) = some c)
    (hm : H (c.value ++ sk) ∉ st.nullifiers) :
    LedgerInv H ghostId sk (withdraw H sk a r st).1 (consumed ++ [c.value]) used := by
  have hpost : (withdraw H sk a r st).1 =
      { commitments := dictDel st.commitments c.value
        nullifiers := H (c.value ++ sk) :: st.nullifiers } := by
    rw [withdraw_of_find_notmem hfind hm]
  obtain ⟨p0, hp0, hp0c⟩ := List.mem_map.mp (List.mem_of_find?_eq_some hfind)
  have hp0key : p0.1 = c.value := by rw [hinv.keyOK p0 hp0, hp0c]
  have hcv_notcons : c.value ∉ consumed := by
    have := hinv.disj p0 hp0
    rwa [hp0c] at this
  rw [hpost]
  refine ⟨?_, ?_, ?_, ?_, ?_, ?_, ?_, ?_⟩
  · intro p hp
    exact hinv.keyOK p (List.mem_of_mem_filter hp)
  · exact hinv.keysNodup.sublist (List.Sublist.map Prod.fst (List.filter_sublist _))
  · intro p hp
    exact hinv.amountsOK p (List.mem_of_mem_filter hp)
  · intro s
    constructor
    · intro hs
      rcases List.mem_cons.mp hs with h | h
      · exact ⟨c.value, List.mem_append_right _ (by simp), h⟩
      · obtain ⟨v, hv, hsv⟩ := (hinv.nullChar s).mp h
        exact ⟨v, List.mem_append_left _ hv, hsv⟩
    · rintro ⟨v, hv, hsv⟩
      rcases List.mem_append.mp hv with h | h
      · exact List.mem_cons_of_mem _ ((hinv.nullChar s).mpr ⟨v, h, hsv⟩)
      · have : v = c.value := by simpa using h
        rw [hsv, this]
        exact List.mem_cons_self _ _
  · simp [List.nodup_append, hinv.consumedNodup, hcv_notcons]
  · intro p hp
    have hmem := List.mem_of_mem_filter hp
    have hkey : ¬ p.1 = c.value := by simpa using List.of_mem_filter hp
    intro hpc
    rcases List.mem_append.mp hpc with h | h
    · exact hinv.disj p hmem h
    · have : p.2.value = c.value := by simpa using h
      exact hkey (by rw [hinv.keyOK p hmem, this])
  · intro p hp
    exact hinv.provOpen p (List.mem_of_mem_filter hp)
  · intro v hv
    rcases List.mem_append.mp hv with h | h
    · exact hinv.provCons v h
    · have hvc : v = c.value := by simpa using h
      obtain ⟨a', ab', n', hn', hab', hv'⟩ := hinv.provOpen p0 hp0
      exact ⟨a', ab', n', hn', hab', by rw [hvc, ← hp0c]; exact hv'⟩

/-- Running any operation sequence whose deposit nonces are pairwise distinct
and fresh preserves the ledger invariant, possibly enlarging the recorded
nonce set. -/
lemma runConsumed_inv {H : Bytes → Bytes} (hH : Function.Injective H)
    (ghostId : String) (sk : Bytes) (ops : List Op) :
    ∀ (st : ClientState) (consumed used : List Bytes),
      LedgerInv H ghostId sk st consumed used →
      (∀ n ∈ depositNonces ops, n ∉ used) →
      (depositNonces ops).Nodup →
      ∃ used', (∀ n ∈ used, n ∈ used') ∧
        LedgerInv H ghostId sk
          (runConsumed H ghostId sk st consumed ops).1
          (runConsumed H ghostId sk st consumed ops).2 used' := by
  induction ops with
  | nil =>
      intro st consumed used hinv _ _
      exact ⟨used, fun _ h => h, hinv⟩
  | cons op ops ih =>
      intro st consumed used hinv hfresh hnd
      cases op with
      | deposit a n =>
          have hn : n ∉ used := hfresh n (by simp [depositNonces])
          have hinv' := ledgerInv_deposit hH hinv a n hn
          simp only [depositNonces, List.nodup_cons] at hnd
          have hfresh' : ∀ m ∈ depositNonces ops, m ∉ n :: used := by
            intro m hm
            simp only [List.mem_cons]
            rintro (hmn | hmu)
            · exact hnd.1 (hmn ▸ hm)
            · exact hfresh m (by simp [depositNonces, hm]) hmu
          obtain ⟨used', hsub, hinv''⟩ :=
            ih (deposit H ghostId a n st).1 consumed (n :: used) hinv' hfresh' hnd.2
          refine ⟨used', fun m hm => hsub m (List.mem_cons_of_mem _ hm), ?_⟩
          simpa [runConsumed] using hinv''
      | withdraw a r =>
          have hfresh' : ∀ m ∈ depositNonces ops, m ∉ used := by
            intro m hm
            exact hfresh m (by simpa [depositNonces] using hm)
          have hnd' : (depositNonces ops).Nodup := by
            simpa [depositNonces] using hnd
          cases hw : withdraw H sk a r st with
          | mk st' res =>
              cases res with
              | error e =>
                  have hst : st' = st := by
                    have := withdraw_error_state_eq H sk a r st e (by rw [hw])
                    rw [hw] at this
                    exact this
                  subst hst
                  obtain ⟨used', hsub, hinv''⟩ :=
                    ih st' consumed used hinv hfresh' hnd'
                  refine ⟨used', hsub, ?_⟩
                  simpa [runConsumed, hw] using hinv''
              | ok s =>
                  have hok : (withdraw H sk a r st).2 = .ok s := by
                    rw [hw]
                  obtain ⟨hs, c, hfind, hm, hpost⟩ := withdraw_ok_elim hok
                  have hinv' := ledgerInv_withdraw_ok hH hinv a r hfind hm
                  rw [hw] at hinv'
                  obtain ⟨used', hsub, hinv''⟩ :=
                    ih st' (consumed ++ [c.value]) used hinv' hfresh' hnd'
                  refine ⟨used', hsub, ?_⟩
                  simpa [runConsumed, hw, hfind] using hinv''


/-- C4 counterexample: amount 0 — which is ≤ 0 — does not fail with any
InvalidAmount error: `generate_commitment` succeeds and returns a commitment
of amount 0, refuting the claim that every amount ≤ 0 fails with
InvalidAmount. -/
theorem C4_counterexample :
    generate_commitment idHash 0 "" [] =
      .ok ⟨[0, 0, 0, 0, 0, 0, 0, 0], [], 0⟩ := by rfl

/-- C4 amended: `generate_commitment` performs no amount validation of its
own — amount 0 succeeds; a negative amount fails, but with the OverflowError
coming from `int.to_bytes`, not an InvalidAmount error (which does not exist
in the code); every amount in `[0, 2^64)` succeeds. -/
theorem C4_amended_no_invalid_amount (H : Bytes → Bytes) (recipient : String)
    (nonce : Bytes) (amount : Int) :
    (∃ c, generate_commitment H 0 recipient nonce = .ok c) ∧
    (amount < 0 →
      generate_commitment H amount recipient nonce = .error .overflowError) ∧
    (0 ≤ amount → amount < 2 ^ 64 →
      ∃ c, generate_commitment H amount recipient nonce = .ok c) := by
  refine ⟨?_, ?_, ?_⟩
  · exact ⟨_, by
      unfold generate_commitment
      rw [toBytes8LE_eq_bytes8 0 (le_refl 0) (by norm_num)]⟩
  · intro hneg
    unfold generate_commitment toBytes8LE
    rw [if_neg (by omega)]
  · intro h0 h1
    exact ⟨_, by
      unfold generate_commitment
      rw [toBytes8LE_eq_bytes8 amount h0 h1]⟩

/-- C4 amended, witness at a concrete input: amount -1 fails with
OverflowError. -/
theorem C4_amended_witness :
    generate_commitment idHash (-1) "" [] = .error .overflowError :=
  (C4_amended_no_invalid_amount idHash "" [] (-1)).2.1 (by decide)

/-- C7: `generate_commitment` is a pure deterministic function of
`(recipient, amount, nonce)` — it receives no ledger state and returns none,
and for every amount representable in 8 bytes it returns exactly the digest
of `recipient-bytes ++ amount-as-8-little-endian-bytes ++ nonce`, together
with the given nonce and amount; being a function of its arguments, equal
inputs always yield this same value. -/
theorem C7_commit_deterministic (H : Bytes → Bytes) (amount : Int)
    (recipient : String) (nonce : Bytes)
    (h0 : 0 ≤ amount) (h1 : amount < 2 ^ 64) :
    generate_commitment H amount recipient nonce =
      .ok ⟨H (strBytes recipient ++ bytes8 amount ++ nonce), nonce, amount⟩ := by
  unfold generate_commitment
  rw [toBytes8LE_eq_bytes8 amount h0 h1]

/-- C7 witness at a concrete input. -/
theorem C7_witness :
    generate_commitment idHash 5 "" [2] =
      .ok ⟨idHash (strBytes "" ++ bytes8 5 ++ [2]), [2], 5⟩ :=
  C7_commit_deterministic idHash 5 "" [2] (by decide) (by decide)

/-- C8: `generate_balance_proof(B)` succeeds — returning the proof stub with
`public_signals = [B]` — whenever the private balance is at least `B`, fails
with InsufficientBalance whenever the balance is below `B`, and in
particular succeeds at `B = total` and fails at `B = total + 1`. -/
theorem C8_balance_proof_threshold (st : ClientState) (B : Int) :
    (B ≤ get_private_balance st →
      generate_balance_proof B st = .ok ⟨strBytes "proof_data", [B]⟩) ∧
    (get_private_balance st < B →
      generate_balance_proof B st =
        .error (.valueError "Insufficient balance")) ∧
    generate_balance_proof (get_private_balance st) st =
      .ok ⟨strBytes "proof_data", [get_private_balance st]⟩ ∧
    generate_balance_proof (get_private_balance st + 1) st =
      .error (.valueError "Insufficient balance") := by
  unfold generate_balance_proof
  refine ⟨?_, ?_, ?_, ?_⟩
  · intro h; rw [if_neg (not_lt.mpr h)]
  · intro h; rw [if_pos h]
  · rw [if_neg (lt_irrefl _)]
  · rw [if_pos (by omega)]

/-- C8 witness: on the one-commitment state `stW` (balance 5), proving a
minimum of 5 succeeds and proving a minimum of 6 fails. -/
theorem C8_witness :
    generate_balance_proof 5 stW = .ok ⟨strBytes "proof_data", [5]⟩ ∧
    generate_balance_proof 6 stW =
      .error (.valueError "Insufficient balance") :=
  ⟨(C8_balance_proof_threshold stW 5).1 (by decide),
   (C8_balance_proof_threshold stW 6).2.1 (by decide)⟩

/-- C9: error atomicity of `withdraw` — both raising paths (insufficient
balance and already-spent) precede every mutation, so a failed call leaves
the commitment dictionary and the nullifier set exactly as they were. -/
theorem C9_withdraw_error_atomic (H : Bytes → Bytes) (sk : Bytes)
    (amount : Int) (recipient : String) (st : ClientState) (e : PyError)
    (h : (withdraw H sk amount recipient st).2 = .error e) :
    (withdraw H sk amount recipient st).1 = st :=
  withdraw_error_state_eq H sk amount recipient st e h

/-- C9 witness: a failing withdraw (7 exceeds the only commitment's amount 5)
leaves the state `stW` untouched. -/
theorem C9_witness : (withdraw idHash [1] 7 "" stW).1 = stW :=
  C9_withdraw_error_atomic idHash [1] 7 "" stW
    (.valueError "Insufficient balance") (by rfl)

/-- C3 counterexample: re-recording a commitment whose digest key already
exists does not fail — the second deposit of amount 7 with the same nonce
(hence the same digest key) succeeds with the normal signature, and the
entry is overwritten in place (here with an identical commitment, leaving
the dictionary unchanged); there is no DuplicateCommitment error. -/
theorem C3_counterexample :
    (deposit idHash "" 7 [0]
        (deposit idHash "" 7 [0] ClientState.empty).1).2 =
      .ok "deposit_tx_signature" ∧
    (deposit idHash "" 7 [0]
        (deposit idHash "" 7 [0] ClientState.empty).1).1 =
      (deposit idHash "" 7 [0] ClientState.empty).1 := by
  exact ⟨rfl, rfl⟩

/-- C3 amended: recording a deposit never checks for duplicates — with any
in-range amount it succeeds, and the store is Python dict assignment: an
existing digest key has its entry overwritten in place (same position,
dictionary length unchanged), while a fresh digest key is appended at the
end. -/
theorem C3_amended_deposit_overwrites (H : Bytes → Bytes) (ghostId : String)
    (amount : Int) (nonce : Bytes) (st : ClientState)
    (h0 : 0 ≤ amount) (h1 : amount < 2 ^ 64) :
    ∃ c, generate_commitment H amount ghostId nonce = .ok c ∧
      (deposit H ghostId amount nonce st).2 = .ok "deposit_tx_signature" ∧
      (st.commitments.any (fun p => p.1 = c.value) = true →
        (deposit H ghostId amount nonce st).1.commitments =
          st.commitments.map
            (fun p => if p.1 = c.value then (c.value, c) else p)) ∧
      (st.commitments.any (fun p => p.1 = c.value) = false →
        (deposit H ghostId amount nonce st).1.commitments =
          st.commitments ++ [(c.value, c)]) := by
  have hab := toBytes8LE_eq_bytes8 amount h0 h1
  have hg : generate_commitment H amount ghostId nonce =
      .ok ⟨H (strBytes ghostId ++ bytes8 amount ++ nonce), nonce, amount⟩ := by
    unfold generate_commitment
    rw [hab]
  have hdep := @deposit_eq H ghostId amount nonce (bytes8 amount) st hab
  refine ⟨_, hg, ?_, ?_, ?_⟩
  · rw [hdep]
  · intro hany
    rw [hdep]
    unfold dictSet
    rw [hany, if_pos rfl]
  · intro hany
    rw [hdep]
    unfold dictSet
    rw [hany, if_neg (by simp)]

/-- C3 amended, witness: the second deposit of amount 7 with nonce `[0]`
(key already present) succeeds. -/
theorem C3_amended_witness :
    (deposit idHash "" 7 [0]
        (deposit idHash "" 7 [0] ClientState.empty).1).2 =
      .ok "deposit_tx_signature" :=
  (C3_amended_deposit_overwrites idHash "" 7 [0]
      (deposit idHash "" 7 [0] ClientState.empty).1
      (by decide) (by decide)).choose_spec.2.1

/-- C6: `withdraw(X)` fails with InsufficientBalance exactly when no single
open commitment has amount ≥ X — even if several together would cover X —
and on success the consumed commitment (the one whose entry the call deletes
from the dictionary) is the first, in stable insertion order, whose amount
is ≥ X (first-fit, no splitting or change-making). -/
theorem C6_first_fit_selection (H : Bytes → Bytes) (sk : Bytes) (amount : Int)
    (recipient : String) (st : ClientState) :
    ((withdraw H sk amount recipient st).2 =
        .error (.valueError "Insufficient balance") ↔
      ∀ c ∈ dictValues st.commitments, c.amount < amount) ∧
    ∀ s, (withdraw H sk amount recipient st).2 = .ok s →
      ∃ c, (dictValues st.commitments).find?
          (fun d => decide (amount ≤ d.amount)) = some c ∧
        (withdraw H sk amount recipient st).1.commitments =
          dictDel st.commitments c.value := by
  constructor
  · cases hf : (dictValues st.commitments).find?
        (fun d => decide (amount ≤ d.amount)) with
    | none =>
        have herr := @withdraw_of_find_none H sk amount recipient st hf
        constructor
        · intro _ c hc
          have := List.find?_eq_none.mp hf c hc
          simpa using this
        · intro _
          rw [herr]
    | some c' =>
        have hle : amount ≤ c'.amount := by
          simpa using List.find?_some hf
        have hmem : c' ∈ dictValues st.commitments :=
          List.mem_of_find?_eq_some hf
        constructor
        · intro herr
          exfalso
          unfold withdraw at herr
          rw [hf] at herr
          by_cases hm : (generate_nullifier H sk c').1 ∈ st.nullifiers
          · simp [hm] at herr
          · simp [hm] at herr
        · intro hall
          exact absurd hle (not_le.mpr (hall c' hmem))
  · intro s hok
    obtain ⟨_, c, hfind, _, hpost⟩ := withdraw_ok_elim hok
    exact ⟨c, hfind, by rw [hpost]⟩

/-- C6 witness: on `stW` (one commitment of amount 5), withdrawing 7 fails
with InsufficientBalance, and withdrawing 3 deletes exactly that first
commitment's entry. -/
theorem C6_witness :
    (withdraw idHash [1] 7 "" stW).2 =
      .error (.valueError "Insufficient balance") ∧
    (withdraw idHash [1] 3 "" stW).1.commitments =
      dictDel stW.commitments cW.value := by
  constructor
  · exact (C6_first_fit_selection idHash [1] 7 "" stW).1.mpr (by decide)
  · obtain ⟨c, hc1, hc2⟩ :=
      (C6_first_fit_selection idHash [1] 3 "" stW).2
        "withdraw_tx_signature" (by rfl)
    have hcw : c = cW := by
      have hsome : some c = some cW := by rw [← hc1]; rfl
      exact Option.some.inj hsome
    rw [← hcw]
    exact hc2

/-- C5 counterexample: a successful withdraw does not return any receipt —
withdrawing 3 from the one-commitment state `stW` succeeds, and the entire
returned value is the constant string `"withdraw_tx_signature"` (the source
only prints the nullifier; no object containing the nullifier and the
consumed commitment is returned), refuting the claim's receipt conjunct at
a concrete input. -/
theorem C5_counterexample :
    (withdraw idHash [1] 3 "" stW).2 = .ok "withdraw_tx_signature" := by rfl

/-- C5 amended: on every successful withdraw — one whose first-fit match `c`
exists and whose derived nullifier is unspent, the exact guards of the
source — the call returns only the constant string
`"withdraw_tx_signature"` (no receipt; the nullifier is merely printed), the
derived nullifier digest is inserted into the spent-nullifiers set, `c` was
among the open commitments and its entry is removed from the dictionary,
and with a well-formed dictionary the total private balance decreases by
exactly `c.amount` (not by the requested amount — the remainder is
forfeited, no change output is created). -/
theorem C5_withdraw_success_effects (H : Bytes → Bytes) (sk : Bytes)
    (amount : Int) (recipient : String) (st : ClientState)
    (hwf : KeysOK st) (c : Commitment)
    (hfind : (dictValues st.commitments).find?
      (fun d => decide (amount ≤ d.amount)) = some c)
    (hm : H (c.value ++ sk) ∉ st.nullifiers) :
    (withdraw H sk amount recipient st).2 = .ok "withdraw_tx_signature" ∧
    c ∈ dictValues st.commitments ∧
    H (c.value ++ sk) ∈ (withdraw H sk amount recipient st).1.nullifiers ∧
    (∀ p ∈ (withdraw H sk amount recipient st).1.commitments,
      ¬ p.1 = c.value) ∧
    get_private_balance (withdraw H sk amount recipient st).1 =
      get_private_balance st - c.amount := by
  have hw := @withdraw_of_find_notmem H sk amount recipient st c hfind hm
  have hpost : (withdraw H sk amount recipient st).1 =
      { commitments := dictDel st.commitments c.value
        nullifiers := H (c.value ++ sk) :: st.nullifiers } := by
    rw [hw]
  have hmem : c ∈ dictValues st.commitments :=
    List.mem_of_find?_eq_some hfind
  obtain ⟨p0, hp0, hp0c⟩ := List.mem_map.mp hmem
  have hp0key : p0.1 = c.value := by rw [hwf.1 p0 hp0, hp0c]
  refine ⟨by rw [hw], hmem, ?_, ?_, ?_⟩
  · rw [hpost]
    exact List.mem_cons_self _ _
  · intro p hp
    rw [hpost] at hp
    simpa using List.of_mem_filter hp
  · rw [hpost]
    unfold get_private_balance
    have hsum := sum_amounts_dictDel st.commitments p0 hp0 hwf.2
    rw [hp0key] at hsum
    rw [hsum, hp0c]

/-- C5 amended, witness: withdrawing 3 from `stW` returns the constant
signature string and the balance drops by the full commitment amount 5
(from 5 to 0), not by 3. -/
theorem C5_witness :
    (withdraw idHash [1] 3 "" stW).2 = .ok "withdraw_tx_signature" ∧
    get_private_balance (withdraw idHash [1] 3 "" stW).1 =
      get_private_balance stW - cW.amount := by
  have h := C5_withdraw_success_effects idHash [1] 3 "" stW
    ⟨by decide, by decide⟩ cW (by rfl) (by decide)
  exact ⟨h.1, h.2.2.2.2⟩

/-- C1: no double spend. Along any sequence of deposit/withdraw operations
from the empty ledger whose deposit nonces are pairwise distinct (the
idealisation of the 32-byte RNG), and with an injective digest (the
idealisation of sha256), (a) the commitment digests consumed by successful
withdraws are pairwise distinct — each commitment is consumed by at most one
successful withdraw (equivalently one `private_transfer`, which delegates to
withdraw), so a second attempt on it either finds no matching open
commitment or trips the AlreadySpent check — and (b) in the reached state no
digest is simultaneously an open commitment and logically redeemed: the
derived nullifier of an open commitment is never in the spent-nullifier
set. -/
theorem C1_no_double_spend (H : Bytes → Bytes) (ghostId : String) (sk : Bytes)
    (hH : Function.Injective H) (ops : List Op)
    (hnd : (depositNonces ops).Nodup) :
    (runConsumed H ghostId sk ClientState.empty [] ops).2.Nodup ∧
    ∀ p ∈ (run H ghostId sk ops).commitments,
      H (p.2.value ++ sk) ∉ (run H ghostId sk ops).nullifiers := by
  obtain ⟨used', _, hinv⟩ :=
    runConsumed_inv hH ghostId sk ops ClientState.empty [] []
      (ledgerInv_empty H ghostId sk) (by intro n _ hc; cases hc) hnd
  refine ⟨hinv.consumedNodup, ?_⟩
  intro p hp hmem
  obtain ⟨v, hv, hsv⟩ := (hinv.nullChar _).mp hmem
  have hpv : p.2.value = v := nullifier_value_inj H hH sk _ _ hsv
  exact hinv.disj p hp (hpv ▸ hv)

/-- C1 witness: a concrete deposit-then-withdraw trace under the identity
digest consumes pairwise-distinct commitment digests. -/
theorem C1_witness :
    (runConsumed idHash "" [1] ClientState.empty [] opsW).2.Nodup :=
  (C1_no_double_spend idHash "" [1] (fun a b h => h) opsW (by decide)).1

/-- C10: zero-amount withdrawal. In any state reachable from the empty
ledger (pairwise-distinct deposit nonces, injective digest) whose commitment
dictionary is non-empty, `withdraw(0, recipient)` raises nothing — no
InvalidAmount or other error — and consumes the first open commitment in
insertion order, removing exactly that entry and forfeiting its entire
amount from the balance. -/
theorem C10_zero_withdraw (H : Bytes → Bytes) (ghostId : String) (sk : Bytes)
    (hH : Function.Injective H) (ops : List Op)
    (hnd : (depositNonces ops).Nodup) (r : String)
    (p : Bytes × Commitment) (rest : List (Bytes × Commitment))
    (hne : (run H ghostId sk ops).commitments = p :: rest) :
    (withdraw H sk 0 r (run H ghostId sk ops)).2 =
      .ok "withdraw_tx_signature" ∧
    (withdraw H sk 0 r (run H ghostId sk ops)).1.commitments = rest ∧
    get_private_balance (withdraw H sk 0 r (run H ghostId sk ops)).1 =
      get_private_balance (run H ghostId sk ops) - p.2.amount := by
  obtain ⟨used', _, hinv0⟩ :=
    runConsumed_inv hH ghostId sk ops ClientState.empty [] []
      (ledgerInv_empty H ghostId sk) (by intro n _ hc; cases hc) hnd
  have hinv : LedgerInv H ghostId sk (run H ghostId sk ops)
      (runConsumed H ghostId sk ClientState.empty [] ops).2 used' := hinv0
  have hp_mem : p ∈ (run H ghostId sk ops).commitments := by
    rw [hne]; exact List.mem_cons_self _ _
  have hamt : 0 ≤ p.2.amount := hinv.amountsOK p hp_mem
  have hfind : (dictValues (run H ghostId sk ops).commitments).find?
      (fun d => decide ((0 : Int) ≤ d.amount)) = some p.2 := by
    rw [hne]
    unfold dictValues
    rw [List.map_cons]
    exact List.find?_cons_of_pos _ (by simpa using hamt)
  have hunspent : H (p.2.value ++ sk) ∉ (run H ghostId sk ops).nullifiers := by
    intro hmem
    obtain ⟨v, hv, hsv⟩ := (hinv.nullChar _).mp hmem
    have hpv : p.2.value = v := nullifier_value_inj H hH sk _ _ hsv
    exact hinv.disj p hp_mem (hpv ▸ hv)
  have hw := @withdraw_of_find_notmem H sk 0 r (run H ghostId sk ops) p.2
    hfind hunspent
  have hpk : p.1 = p.2.value := hinv.keyOK p hp_mem
  have hnodup := hinv.keysNodup
  rw [hne] at hnodup
  simp only [List.map_cons, List.nodup_cons] at hnodup
  have hdel : dictDel (run H ghostId sk ops).commitments p.2.value = rest := by
    rw [hne]
    unfold dictDel
    rw [List.filter_cons]
    have hcond : (decide ¬ p.1 = p.2.value) = false := by simp [hpk]
    rw [hcond, if_neg (by simp)]
    refine List.filter_eq_self.mpr fun q hq => ?_
    simp only [decide_eq_true_eq]
    intro hqc
    apply hnodup.1
    rw [hpk, ← hqc]
    exact List.mem_map_of_mem Prod.fst hq
  refine ⟨?_, ?_, ?_⟩
  · rw [hw]
  · rw [hw]
    exact hdel
  · rw [hw]
    show get_private_balance ⟨dictDel (run H ghostId sk ops).commitments
      p.2.value, _⟩ = _
    unfold get_private_balance
    have hsum := sum_amounts_dictDel (run H ghostId sk ops).commitments p
      hp_mem hinv.keysNodup
    rw [hpk] at hsum
    exact hsum

/-- C10 witness: after one concrete deposit of 5, withdrawing 0 succeeds and
consumes that commitment, dropping the balance by its full amount 5. -/
theorem C10_witness :
    (withdraw idHash [1] 0 "" (run idHash "" [1] [.deposit 5 [0]])).2 =
      .ok "withdraw_tx_signature" ∧
    get_private_balance
        (withdraw idHash [1] 0 "" (run idHash "" [1] [.deposit 5 [0]])).1 =
      get_private_balance (run idHash "" [1] [.deposit 5 [0]]) - cW.amount := by
  have h := C10_zero_withdraw idHash "" [1] (fun a b h => h) [.deposit 5 [0]]
    (by decide) "" (cW.value, cW) [] (by rfl)
  exact ⟨h.1, h.2.2⟩

/-- Helper for the scenario: the state after depositing 1_000_000_000 (nonce
`n1`) and then 500_000_000 (nonce `n2 ≠ n1`) holds exactly the two
commitments, in insertion order, with an empty nullifier set. -/
lemma scenario_after_deposits {H : Bytes → Bytes} (hH : Function.Injective H)
    (ghostId : String) (n1 n2 : Bytes) (hn : n1 ≠ n2) :
    (deposit H ghostId 500000000 n2
      (deposit H ghostId 1000000000 n1 ClientState.empty).1).1 =
    ⟨[(H (strBytes ghostId ++ bytes8 1000000000 ++ n1),
       ⟨H (strBytes ghostId ++ bytes8 1000000000 ++ n1), n1, 1000000000⟩),
      (H (strBytes ghostId ++ bytes8 500000000 ++ n2),
       ⟨H (strBytes ghostId ++ bytes8 500000000 ++ n2), n2, 500000000⟩)],
     []⟩ := by
  have hab1 := toBytes8LE_eq_bytes8 1000000000 (by norm_num) (by norm_num)
  have hab2 := toBytes8LE_eq_bytes8 500000000 (by norm_num) (by norm_num)
  have hv12 : H (strBytes ghostId ++ bytes8 1000000000 ++ n1) ≠
      H (strBytes ghostId ++ bytes8 500000000 ++ n2) := fun hv =>
    hn (commit_value_nonce_eq H hH (strBytes ghostId) 1000000000 500000000
      (bytes8 1000000000) (bytes8 500000000) n1 n2 hab1 hab2 hv)
  have hst1 : (deposit H ghostId 1000000000 n1 ClientState.empty).1 =
      ⟨[(H (strBytes ghostId ++ bytes8 1000000000 ++ n1),
         ⟨H (strBytes ghostId ++ bytes8 1000000000 ++ n1), n1,
          1000000000⟩)], []⟩ := by
    rw [@deposit_eq H ghostId 1000000000 n1 (bytes8 1000000000)
      ClientState.empty hab1]
    simp [ClientState.empty, dictSet]
  have hv12a : ¬ H (strBytes ghostId ++ (bytes8 1000000000 ++ n1)) =
      H (strBytes ghostId ++ (bytes8 500000000 ++ n2)) := by
    rw [← List.append_assoc, ← List.append_assoc]
    exact hv12
  rw [hst1,
    @deposit_eq H ghostId 500000000 n2 (bytes8 500000000) _ hab2]
  simp [dictSet, hv12, hv12a]

/-- C2 counterexample: running the spec's scenario concretely (identity
digest, ghost id `""`, signing key `[1]`, nonces `[0]` and `[1]`), the
`withdraw(500_000_000)` after the two deposits consumes the 1_000_000_000
commitment — the first in insertion order with amount ≥ 500_000_000 — so the
remaining total private balance is 500_000_000, refuting the claimed
consumption of the 500_000_000 commitment and the claimed remaining balance
of 1_000_000_000. -/
theorem C2_counterexample :
    (withdraw idHash [1] 500000000 "r" st2).2 = .ok "withdraw_tx_signature" ∧
    st3.nullifiers = [c1B.value ++ [1]] ∧
    get_private_balance st3 = 500000000 ∧
    get_private_balance st3 ≠ 1000000000 := by
  refine ⟨rfl, rfl, rfl, by decide⟩

/-- C2 amended: from the empty ledger (any injective digest, any ghost id and
signing key, distinct deposit nonces), after deposit 1_000_000_000 then
deposit 500_000_000 the total private balance is 1_500_000_000; the
subsequent `withdraw(500_000_000)` succeeds (returning the constant
signature string) but consumes the 1_000_000_000 commitment — the first in
insertion order whose amount is ≥ 500_000_000, as witnessed by its derived
nullifier being the one recorded — leaving total private balance exactly
500_000_000; after that, `withdraw(2_000_000_000)` fails with
InsufficientBalance. -/
theorem C2_amended_scenario (H : Bytes → Bytes) (hH : Function.Injective H)
    (ghostId : String) (sk : Bytes) (r : String) (n1 n2 : Bytes)
    (hn : n1 ≠ n2) :
    get_private_balance
        (deposit H ghostId 500000000 n2
          (deposit H ghostId 1000000000 n1 ClientState.empty).1).1 =
      1500000000 ∧
    (withdraw H sk 500000000 r
        (deposit H ghostId 500000000 n2
          (deposit H ghostId 1000000000 n1 ClientState.empty).1).1).2 =
      .ok "withdraw_tx_signature" ∧
    (withdraw H sk 500000000 r
        (deposit H ghostId 500000000 n2
          (deposit H ghostId 1000000000 n1 ClientState.empty).1).1).1.nullifiers =
      [H (H (strBytes ghostId ++ bytes8 1000000000 ++ n1) ++ sk)] ∧
    get_private_balance
        (withdraw H sk 500000000 r
          (deposit H ghostId 500000000 n2
            (deposit H ghostId 1000000000 n1 ClientState.empty).1).1).1 =
      500000000 ∧
    (withdraw H sk 2000000000 r
        (withdraw H sk 500000000 r
          (deposit H ghostId 500000000 n2
            (deposit H ghostId 1000000000 n1 ClientState.empty).1).1).1).2 =
      .error (.valueError "Insufficient balance") := by
  have hab1 := toBytes8LE_eq_bytes8 1000000000 (by norm_num) (by norm_num)
  have hab2 := toBytes8LE_eq_bytes8 500000000 (by norm_num) (by norm_num)
  have hv12 : H (strBytes ghostId ++ bytes8 1000000000 ++ n1) ≠
      H (strBytes ghostId ++ bytes8 500000000 ++ n2) := fun hv =>
    hn (commit_value_nonce_eq H hH (strBytes ghostId) 1000000000 500000000
      (bytes8 1000000000) (bytes8 500000000) n1 n2 hab1 hab2 hv)
  have hst2 := scenario_after_deposits hH ghostId n1 n2 hn
  have hfind1 :
      (dictValues
          [(H (strBytes ghostId ++ bytes8 1000000000 ++ n1),
            ⟨H (strBytes ghostId ++ bytes8 1000000000 ++ n1), n1,
             1000000000⟩),
           (H (strBytes ghostId ++ bytes8 500000000 ++ n2),
            ⟨H (strBytes ghostId ++ bytes8 500000000 ++ n2), n2,
             500000000⟩)]).find?
        (fun d => decide ((500000000 : Int) ≤ d.amount)) =
      some ⟨H (strBytes ghostId ++ bytes8 1000000000 ++ n1), n1,
        1000000000⟩ := by
    unfold dictValues
    rw [List.map_cons]
    exact List.find?_cons_of_pos _ (by norm_num)
  have hw1 := @withdraw_of_find_notmem H sk 500000000 r
    ⟨[(H (strBytes ghostId ++ bytes8 1000000000 ++ n1),
       ⟨H (strBytes ghostId ++ bytes8 1000000000 ++ n1), n1, 1000000000⟩),
      (H (strBytes ghostId ++ bytes8 500000000 ++ n2),
       ⟨H (strBytes ghostId ++ bytes8 500000000 ++ n2), n2, 500000000⟩)],
     []⟩
    ⟨H (strBytes ghostId ++ bytes8 1000000000 ++ n1), n1, 1000000000⟩
    hfind1 (by simp)
  have hdel1 : dictDel
      [(H (strBytes ghostId ++ bytes8 1000000000 ++ n1),
        ⟨H (strBytes ghostId ++ bytes8 1000000000 ++ n1), n1, 1000000000⟩),
       (H (strBytes ghostId ++ bytes8 500000000 ++ n2),
        ⟨H (strBytes ghostId ++ bytes8 500000000 ++ n2), n2, 500000000⟩)]
      (H (strBytes ghostId ++ bytes8 1000000000 ++ n1)) =
      [(H (strBytes ghostId ++ bytes8 500000000 ++ n2),
        ⟨H (strBytes ghostId ++ bytes8 500000000 ++ n2), n2, 500000000⟩)] := by
    unfold dictDel
    rw [List.filter_cons, List.filter_cons]
    have h1 : (decide ¬ H (strBytes ghostId ++ bytes8 1000000000 ++ n1) =
        H (strBytes ghostId ++ bytes8 1000000000 ++ n1)) = false := by simp
    have h2 : (decide ¬ H (strBytes ghostId ++ bytes8 500000000 ++ n2) =
        H (strBytes ghostId ++ bytes8 1000000000 ++ n1)) = true := by
      simp only [decide_eq_true_eq]
      exact fun hc => hv12 hc.symm
    rw [h1, h2, if_neg (by simp), if_pos rfl]
    rfl
  refine ⟨?_, ?_, ?_, ?_, ?_⟩
  · rw [hst2]
    unfold get_private_balance dictValues
    norm_num
  · rw [hst2, hw1]
  · rw [hst2, hw1]
  · rw [hst2, hw1]
    show get_private_balance
      ⟨dictDel _ (⟨H (strBytes ghostId ++ bytes8 1000000000 ++ n1), n1,
        (1000000000 : Int)⟩ : Commitment).value, _⟩ = 500000000
    rw [show (⟨H (strBytes ghostId ++ bytes8 1000000000 ++ n1), n1,
      (1000000000 : Int)⟩ : Commitment).value =
      H (strBytes ghostId ++ bytes8 1000000000 ++ n1) from rfl]
    rw [show get_private_balance
      ⟨dictDel
        [(H (strBytes ghostId ++ bytes8 1000000000 ++ n1),
          ⟨H (strBytes ghostId ++ bytes8 1000000000 ++ n1), n1, 1000000000⟩),
         (H (strBytes ghostId ++ bytes8 500000000 ++ n2),
          ⟨H (strBytes ghostId ++ bytes8 500000000 ++ n2), n2, 500000000⟩)]
        (H (strBytes ghostId ++ bytes8 1000000000 ++ n1)),
      [H (H (strBytes ghostId ++ bytes8 1000000000 ++ n1) ++ sk)]⟩ =
      ((dictValues (dictDel
        [(H (strBytes ghostId ++ bytes8 1000000000 ++ n1),
          ⟨H (strBytes ghostId ++ bytes8 1000000000 ++ n1), n1, 1000000000⟩),
         (H (strBytes ghostId ++ bytes8 500000000 ++ n2),
          ⟨H (strBytes ghostId ++ bytes8 500000000 ++ n2), n2, 500000000⟩)]
        (H (strBytes ghostId ++ bytes8 1000000000 ++ n1)))).map
          Commitment.amount).sum from rfl]
    rw [hdel1]
    rfl
  · rw [hst2, hw1]
    have hfind2 : (dictValues
        (dictDel
          [(H (strBytes ghostId ++ bytes8 1000000000 ++ n1),
            ⟨H (strBytes ghostId ++ bytes8 1000000000 ++ n1), n1,
             1000000000⟩),
           (H (strBytes ghostId ++ bytes8 500000000 ++ n2),
            ⟨H (strBytes ghostId ++ bytes8 500000000 ++ n2), n2,
             500000000⟩)]
          (H (strBytes ghostId ++ bytes8 1000000000 ++ n1)))).find?
        (fun d => decide ((2000000000 : Int) ≤ d.amount)) = none := by
      rw [hdel1]
      unfold dictValues
      rw [List.map_cons, List.map_nil]
      rw [List.find?_cons_of_neg _ (by norm_num)]
      rfl
    have hw2 := @withdraw_of_find_none H sk 2000000000 r
      ⟨dictDel
        [(H (strBytes ghostId ++ bytes8 1000000000 ++ n1),
          ⟨H (strBytes ghostId ++ bytes8 1000000000 ++ n1), n1, 1000000000⟩),
         (H (strBytes ghostId ++ bytes8 500000000 ++ n2),
          ⟨H (strBytes ghostId ++ bytes8 500000000 ++ n2), n2, 500000000⟩)]
        (H (strBytes ghostId ++ bytes8 1000000000 ++ n1)),
       [H (H (strBytes ghostId ++ bytes8 1000000000 ++ n1) ++ sk)]⟩ hfind2
    show (withdraw H sk 2000000000 r
      ⟨dictDel
        [(H (strBytes ghostId ++ bytes8 1000000000 ++ n1),
          ⟨H (strBytes ghostId ++ bytes8 1000000000 ++ n1), n1, 1000000000⟩),
         (H (strBytes ghostId ++ bytes8 500000000 ++ n2),
          ⟨H (strBytes ghostId ++ bytes8 500000000 ++ n2), n2, 500000000⟩)]
        (H (strBytes ghostId ++ bytes8 1000000000 ++ n1)),
       [H (H (strBytes ghostId ++ bytes8 1000000000 ++ n1) ++ sk)]⟩).2 =
      .error (.valueError "Insufficient balance")
    rw [hw2]

/-- C2 amended, witness at concrete inputs (identity digest, nonces `[0]`
and `[1]`): the balance after the two deposits is 1_500_000_000. -/
theorem C2_amended_witness :
    get_private_balance
        (deposit idHash "" 500000000 [1]
          (deposit idHash "" 1000000000 [0] ClientState.empty).1).1 =
      1500000000 :=
  (C2_amended_scenario idHash (fun a b h => h) "" [1] "r" [0] [1]
    (by decide)).1
